import Mathlib

/-!
Verification of the TCP connection-broker core (`server/utils/tcp_handler.py`):
a shallow embedding of the `TCPHandler` class state and its operations,
together with theorems about framing, dispatch, identity resolution,
eviction, the liveness sweep and the outbound send path.

Modelling conventions:
* Python `bytes` are `List Nat` (one `Nat` per byte, newline = 10).
* Python `str` is `String` for identifiers and dictionary keys, and
  `List Char` for message text and commands where character-level
  reasoning is needed.
* Python `dict` (which preserves insertion order) is an association list
  `List (key × value)`; assignment replaces in place or appends,
  `del` removes the entry.
* A socket is modelled by its observable failure behaviour: a flag saying
  whether `close()` raises and a flag saying whether `sendall()` raises,
  plus the bytes successfully written.
* Callbacks are opaque handler identifiers (`Nat`); invoking a handler is
  modelled by emitting a `DispatchCall` record carrying the key under
  which the handler was found and the payload dictionary passed to it.
-/

/-- One entry of `self.clients`: peer address, resolved device identity
(`device_id`, `None` until learned), last-activity timestamp, and the
modelled socket failure behaviour. -/
structure ClientInfo where
  address : String × Nat
  device_id : Option String
  last_activity : Nat
  closeRaises : Bool
  sendRaises : Bool
deriving DecidableEq, Repr

/-- Association-list update, mirroring Python dict assignment: an existing
key is overwritten in place, a new key is appended at the end. -/
def alUpdate {α : Type} (l : List (String × α)) (k : String) (v : α) : List (String × α) :=
  match l with
  | [] => [(k, v)]
  | (k2, v2) :: t => if k2 = k then (k, v) :: t else (k2, v2) :: alUpdate t k v

/-- Association-list deletion, mirroring Python `del d[k]`: removes the
first entry with the given key (dicts hold at most one). -/
def alErase {α : Type} (l : List (String × α)) (k : String) : List (String × α) :=
  match l with
  | [] => []
  | (k2, v2) :: t => if k2 = k then t else (k2, v2) :: alErase t k

/-- The mutable state of a `TCPHandler`: the Connection Table
(`self.clients`), the per-connection receive buffers
(`self.message_buffers`) and the handler registrations
(`self.device_handlers`, device key → kind key → handler). -/
structure TCPState where
  clients : List (String × ClientInfo)
  message_buffers : List (String × List Nat)
  device_handlers : List (String × List (String × Nat))
deriving DecidableEq, Repr

/-- `TCPHandler.DEVICE_ID_MAPPING`: raw single-character device tags to
canonical device identifiers. -/
def DEVICE_ID_MAPPING : List (Char × String) :=
  [('S', "sort_controller"), ('H', "env_controller"), ('G', "access_controller")]

/-! ## Framing (`_process_data`, lines 198-215)

The `while b'\n' in buffer` loop repeatedly splits the buffer at the first
newline byte (`buffer.split(b'\n', 1)`), appends the part before the
newline to `messages` when it is nonempty, and leaves the part after the
last newline as the new buffer. -/

/-- The framing loop of `_process_data`, with explicit fuel (each
iteration consumes at least one byte, so `buffer.length` iterations always
suffice): split the buffer at the first newline byte, keep the part before
it as a message when nonempty, and continue on the part after it. -/
def extractLoopFuel : Nat → List Nat → List (List Nat) × List Nat
  | 0, buffer => ([], buffer)
  | fuel + 1, buffer =>
    if 10 ∈ buffer then
      let message := buffer.takeWhile (fun b => b != 10)
      let p := extractLoopFuel fuel ((buffer.dropWhile (fun b => b != 10)).tail)
      (if message.isEmpty then p.1 else message :: p.1, p.2)
    else ([], buffer)

/-- The framing loop of `_process_data`: extract every complete
newline-terminated message from the buffer (dropping empty ones) and
return the extracted messages together with the residual buffer. -/
def extractLoop (buffer : List Nat) : List (List Nat) × List Nat :=
  extractLoopFuel buffer.length buffer

/-- Successive applications of the framing step of `_process_data` to a
sequence of received chunks, starting from a given buffer state: each
chunk is appended to the current buffer, complete messages are extracted,
and the residual buffer is carried to the next chunk. Returns all
extracted messages in order and the final buffer. -/
def feedAll (buffer : List Nat) : List (List Nat) → List (List Nat) × List Nat
  | [] => ([], buffer)
  | c :: cs =>
    let p := extractLoop (buffer ++ c)
    let q := feedAll p.2 cs
    (p.1 ++ q.1, q.2)

/-- Spec-side definition (from the spec's words, independent of the code):
split a byte stream at every newline byte into segments; the final segment
is the part after the last newline (the whole stream if it has none). -/
def splitNl : List Nat → List (List Nat)
  | [] => [[]]
  | b :: rest =>
    if b = 10 then [] :: splitNl rest
    else
      match splitNl rest with
      | [] => [[b]]
      | s :: ss => (b :: s) :: ss

example : extractLoop [65, 10, 10, 66, 67] = ([[65]], [66, 67]) := by decide
example : splitNl [65, 10, 10, 66, 67] = [[65], [], [66, 67]] := by decide
example : feedAll [] [[83, 69], [48, 10]] = ([[83, 69, 48]], []) := by decide

/-! ## Decoding (`message.decode('utf-8')`)

Python's strict UTF-8 decoder: accepts exactly well-formed UTF-8
(rejecting stray continuation bytes, overlong encodings, surrogates and
code points above U+10FFFF) and raises `UnicodeDecodeError` otherwise,
modelled as `none`. Fuel is the byte count (each code point consumes at
least one byte). -/

/-- Strict UTF-8 decoding of a byte list to code points, with fuel. -/
def utf8DecodeFuel : Nat → List Nat → Option (List Nat)
  | 0, [] => some []
  | 0, _ :: _ => none
  | _ + 1, [] => some []
  | fuel + 1, b :: rest =>
    if b < 128 then
      (utf8DecodeFuel fuel rest).map (fun t => b :: t)
    else if 194 ≤ b ∧ b ≤ 223 then
      match rest with
      | c :: rest2 =>
        if 128 ≤ c ∧ c ≤ 191 then
          (utf8DecodeFuel fuel rest2).map (fun t => ((b - 192) * 64 + (c - 128)) :: t)
        else none
      | [] => none
    else if 224 ≤ b ∧ b ≤ 239 then
      match rest with
      | c :: d :: rest2 =>
        let cLo : Nat := if b = 224 then 160 else 128
        let cHi : Nat := if b = 237 then 159 else 191
        if (cLo ≤ c ∧ c ≤ cHi) ∧ (128 ≤ d ∧ d ≤ 191) then
          (utf8DecodeFuel fuel rest2).map
            (fun t => ((b - 224) * 4096 + (c - 128) * 64 + (d - 128)) :: t)
        else none
      | _ => none
    else if 240 ≤ b ∧ b ≤ 244 then
      match rest with
      | c :: d :: e :: rest2 =>
        let cLo : Nat := if b = 240 then 144 else 128
        let cHi : Nat := if b = 244 then 143 else 191
        if (cLo ≤ c ∧ c ≤ cHi) ∧ (128 ≤ d ∧ d ≤ 191) ∧ (128 ≤ e ∧ e ≤ 191) then
          (utf8DecodeFuel fuel rest2).map
            (fun t => ((b - 240) * 262144 + (c - 128) * 4096 + (d - 128) * 64 + (e - 128)) :: t)
        else none
      | _ => none
    else none

/-- `bytes.decode('utf-8')`: the decoded characters, or `none` when the
decoder raises. -/
def utf8Decode (l : List Nat) : Option (List Char) :=
  (utf8DecodeFuel l.length l).map (List.map Char.ofNat)

example : utf8Decode [83, 69, 48] = some ['S', 'E', '0'] := by decide
example : utf8Decode [228, 189, 160] = some ['你'] := by decide
example : utf8Decode [128] = none := by decide

/-! ## Dispatch (`_process_message`, lines 250-335) -/

/-- Lookup `dev in self.device_handlers and kind in self.device_handlers[dev]`,
returning the registered handler when both hold. -/
def hlookup (handlers : List (String × List (String × Nat))) (dev kind : String) : Option Nat :=
  match handlers.lookup dev with
  | some tbl => tbl.lookup kind
  | none => none

/-- The legacy message-kind aliases tried by the compatibility fallback:
an event kind maps to the old event name, a response kind to the old
response name, an error kind to the old error name; every other kind has
no alias. -/
def legacyType (message_type : Char) : Option String :=
  if message_type = 'E' then some "evt"
  else if message_type = 'R' then some "res"
  else if message_type = 'X' then some "err"
  else none

/-- The observable effect of invoking a registered handler: the key pair
under which the handler was found, the handler itself, and the payload
dictionary passed to the callback (the `raw` field is present only when
the first strategy matched). -/
structure DispatchCall where
  dev_key : String
  kind_key : String
  handler : Nat
  device_type : Char
  message_type : Char
  content : List Char
  raw : Option (List Char)
deriving DecidableEq, Repr

/-- `_process_message`: route a parsed message to the first matching
handler, trying (canonical id, kind), then (raw tag, kind), then the
legacy alias of the kind under the canonical id, then under the raw tag.
Returns the invocation performed, if any. -/
def _process_message (handlers : List (String × List (String × Nat)))
    (device_id : String) (message_type : Char) (raw_device_id : Char)
    (content : List Char) : Option DispatchCall :=
  let mt := message_type.toString
  let original_message := raw_device_id :: message_type :: content
  match hlookup handlers device_id mt with
  | some h =>
    some { dev_key := device_id, kind_key := mt, handler := h,
           device_type := raw_device_id, message_type := message_type,
           content := content, raw := some original_message }
  | none =>
    match hlookup handlers raw_device_id.toString mt with
    | some h =>
      some { dev_key := raw_device_id.toString, kind_key := mt, handler := h,
             device_type := raw_device_id, message_type := message_type,
             content := content, raw := none }
    | none =>
      match legacyType message_type with
      | none => none
      | some lt =>
        match hlookup handlers device_id lt with
        | some h =>
          some { dev_key := device_id, kind_key := lt, handler := h,
                 device_type := raw_device_id, message_type := message_type,
                 content := content, raw := none }
        | none =>
          match hlookup handlers raw_device_id.toString lt with
          | some h =>
            some { dev_key := raw_device_id.toString, kind_key := lt, handler := h,
                   device_type := raw_device_id, message_type := message_type,
                   content := content, raw := none }
          | none => none

/-- Spec-side definition (from the spec's words): the ordered list of
(device key, kind key) resolution strategies the Dispatcher must try. -/
def dispatchCandidates (device_id : String) (message_type : Char)
    (raw_device_id : Char) : List (String × String) :=
  [(device_id, message_type.toString), (raw_device_id.toString, message_type.toString)] ++
    (match legacyType message_type with
     | some lt => [(device_id, lt), (raw_device_id.toString, lt)]
     | none => [])

/-! ## Receiving (`_process_data`, lines 195-247) -/

/-- Lines 236-241 of `_process_data`: when the connection is still in the
Connection Table and its device identity is unset, record the raw device
tag of the current message as its identity (first-writer-wins). -/
def learnDevice (st : TCPState) (client_id : String) (device_type : Char) : TCPState :=
  match st.clients.lookup client_id with
  | none => st
  | some info =>
    if info.device_id = none then
      let info2 := { info with device_id := some device_type.toString }
      { st with clients := alUpdate st.clients client_id info2 }
    else st

/-- The message loop of `_process_data` (lines 217-247): decode each
framed line (a decode error drops the line), drop lines shorter than two
characters, map the raw tag through `DEVICE_ID_MAPPING` (an unmapped tag
maps to itself), learn the connection's device identity, and dispatch via
`_process_message`. Returns the new state and the handler invocations in
order. -/
def processMessages (st : TCPState) (client_id : String) :
    List (List Nat) → TCPState × List DispatchCall
  | [] => (st, [])
  | m :: ms =>
    match utf8Decode m with
    | none => processMessages st client_id ms
    | some [] => processMessages st client_id ms
    | some [_] => processMessages st client_id ms
    | some (device_type :: message_type :: content) =>
      let mapped_device_id := (DEVICE_ID_MAPPING.lookup device_type).getD device_type.toString
      let st2 := learnDevice st client_id device_type
      let call := _process_message st2.device_handlers mapped_device_id
        message_type device_type content
      let q := processMessages st2 client_id ms
      (q.1, call.toList ++ q.2)

/-- `_process_data`: append the chunk to the connection's receive buffer
(creating an empty buffer if none exists), extract complete lines, store
the residual buffer, and run the message loop. -/
def _process_data (st : TCPState) (client_id : String) (data : List Nat) :
    TCPState × List DispatchCall :=
  let buffer := (st.message_buffers.lookup client_id).getD []
  let p := extractLoop (buffer ++ data)
  processMessages
    { st with message_buffers := alUpdate st.message_buffers client_id p.2 }
    client_id p.1

/-! ## Eviction, sweep and send (lines 338-465) -/

/-- `_remove_client`: if the connection is present, close its socket,
remove it from the Connection Table and discard its receive buffer. The
whole body runs inside one exception guard, so a socket close that raises
aborts the removal (the error is only logged). -/
def _remove_client (st : TCPState) (client_id : String) : TCPState :=
  match st.clients.lookup client_id with
  | none => st
  | some info =>
    if info.closeRaises then st
    else
      { st with clients := alErase st.clients client_id,
                message_buffers := alErase st.message_buffers client_id }

/-- `_cleanup_inactive_clients`: collect every connection whose idle time
strictly exceeds the timeout, then evict each via `_remove_client`. -/
def _cleanup_inactive_clients (st : TCPState) (current_time timeout : Nat) : TCPState :=
  let inactive_clients :=
    (st.clients.filter
      (fun p => decide (timeout < current_time - p.2.last_activity))).map Prod.fst
  inactive_clients.foldl _remove_client st

/-- `_find_client_by_device`: the first connection whose resolved device
identity equals the requested device id. -/
def _find_client_by_device (st : TCPState) (device_id : String) : Option String :=
  (st.clients.find? (fun p => decide (p.2.device_id = some device_id))).map Prod.fst

/-- The outcome of `send_message`: the new state, the returned boolean,
the bytes written to the socket (when the write happened), and the
diagnostic data logged on the no-client failure path — the list of
connected clients with their identities and addresses, and the raw tag
obtained from the reversed static mapping, when it has one. -/
structure SendResult where
  state : TCPState
  ok : Bool
  wire : Option (List Char)
  connectedLog : Option (List (String × Option String × String × Nat))
  mappedRawLog : Option Char
deriving DecidableEq, Repr

/-- `send_message`: find the client for the device id; if none, log the
connected-client list and the reverse-mapped raw tag and report failure.
Otherwise append a newline terminator to the command unless it already
ends with one, write the bytes, update last activity and report success;
a write error evicts the connection and reports failure. -/
def send_message (st : TCPState) (now : Nat) (device_id : String)
    (command : List Char) : SendResult :=
  match _find_client_by_device st device_id with
  | none =>
    { state := st, ok := false, wire := none,
      connectedLog := some (st.clients.map
        (fun p => (p.1, p.2.device_id, p.2.address.1, p.2.address.2))),
      mappedRawLog := (DEVICE_ID_MAPPING.map (fun p => (p.2, p.1))).lookup device_id }
  | some client_id =>
    match st.clients.lookup client_id with
    | none =>
      { state := st, ok := false, wire := none,
        connectedLog := none, mappedRawLog := none }
    | some info =>
      let cmd := if command.getLast? = some '\n' then command else command ++ ['\n']
      if info.sendRaises then
        { state := _remove_client st client_id, ok := false, wire := none,
          connectedLog := none, mappedRawLog := none }
      else
        let info2 := { info with last_activity := now }
        { state := { st with clients := alUpdate st.clients client_id info2 },
          ok := true, wire := some cmd,
          connectedLog := none, mappedRawLog := none }

/-- A sample Connection Table state used by concrete witnesses: one
pre-registered sorter connection, one unresolved connection, and a
registered handler table. -/
def sampleState : TCPState :=
  { clients :=
      [("192.168.0.10:5000",
        { address := ("192.168.0.10", 5000), device_id := some "sort_controller",
          last_activity := 0, closeRaises := false, sendRaises := false }),
       ("192.168.0.11:5001",
        { address := ("192.168.0.11", 5001), device_id := none,
          last_activity := 2, closeRaises := false, sendRaises := false })],
    message_buffers := [("192.168.0.10:5000", []), ("192.168.0.11:5001", [])],
    device_handlers := [("sort_controller", [("E", 1), ("evt", 2)]), ("S", [("E", 3)])] }

example :
    (_process_data sampleState "192.168.0.11:5001" [83, 69, 48, 10]).2 =
      [{ dev_key := "sort_controller", kind_key := "E", handler := 1,
         device_type := 'S', message_type := 'E', content := ['0'],
         raw := some ['S', 'E', '0'] }] := by decide

example :
    ((_process_data sampleState "192.168.0.11:5001" [83, 69, 48, 10]).1.clients.lookup
      "192.168.0.11:5001").map ClientInfo.device_id = some (some "S") := by decide

/-! ## Framing lemmas (towards C1) -/

theorem tail_dropWhile_length_lt (b : List Nat) (h : 10 ∈ b) :
    ((b.dropWhile (fun x => x != 10)).tail).length < b.length := by
  have hne : b.dropWhile (fun x => x != 10) ≠ [] := by
    intro hnil
    have hall := List.dropWhile_eq_nil_iff.mp hnil 10 h
    simp at hall
  have hlen : (b.takeWhile (fun x => x != 10)).length
      + (b.dropWhile (fun x => x != 10)).length = b.length := by
    rw [← List.length_append, List.takeWhile_append_dropWhile]
  have hpos : 0 < (b.dropWhile (fun x => x != 10)).length := List.length_pos.mpr hne
  rw [List.length_tail]
  omega

theorem extractLoopFuel_congr :
    ∀ f1 f2 (r : List Nat), r.length ≤ f1 → r.length ≤ f2 →
      extractLoopFuel f1 r = extractLoopFuel f2 r := by
  intro f1
  induction f1 with
  | zero =>
    intro f2 r h1 _
    have : r = [] := List.length_eq_zero.mp (Nat.le_zero.mp h1)
    subst this
    cases f2 <;> simp [extractLoopFuel]
  | succ f1 ih =>
    intro f2 r h1 h2
    cases f2 with
    | zero =>
      have : r = [] := List.length_eq_zero.mp (Nat.le_zero.mp h2)
      subst this
      simp [extractLoopFuel]
    | succ f2 =>
      by_cases h : 10 ∈ r
      · have hlt := tail_dropWhile_length_lt r h
        simp only [extractLoopFuel, if_pos h]
        rw [ih f2 _ (by omega) (by omega)]
      · simp only [extractLoopFuel, if_neg h]

/-- One-step unfolding of `extractLoop`. -/
theorem extractLoop_unfold (b : List Nat) :
    extractLoop b =
      if 10 ∈ b then
        ((if (b.takeWhile (fun x => x != 10)).isEmpty
            then (extractLoop ((b.dropWhile (fun x => x != 10)).tail)).1
            else b.takeWhile (fun x => x != 10) ::
              (extractLoop ((b.dropWhile (fun x => x != 10)).tail)).1),
         (extractLoop ((b.dropWhile (fun x => x != 10)).tail)).2)
      else ([], b) := by
  by_cases h : 10 ∈ b
  · have hlt := tail_dropWhile_length_lt b h
    have hb : b ≠ [] := by rintro rfl; simp at h
    have hlen : b.length = (b.length - 1) + 1 := by
      have := List.length_pos.mpr hb
      omega
    rw [if_pos h]
    conv_lhs => rw [extractLoop, hlen]
    simp only [extractLoopFuel, if_pos h]
    rw [extractLoopFuel_congr (b.length - 1)
      ((b.dropWhile (fun x => x != 10)).tail).length _ (by omega) (le_refl _)]
    rfl
  · rw [if_neg h]
    rw [extractLoop]
    cases hb : b with
    | nil => simp [extractLoopFuel]
    | cons x t =>
      rw [← hb]
      have hlen : b.length = (b.length - 1) + 1 := by
        rw [hb]; simp
      rw [hlen]
      simp only [extractLoopFuel, if_neg h]

theorem dropWhile_cons10 (b : List Nat) (h : 10 ∈ b) :
    b.dropWhile (fun x => x != 10) = 10 :: (b.dropWhile (fun x => x != 10)).tail := by
  induction b with
  | nil => simp at h
  | cons a t ih =>
    by_cases ha : a = 10
    · subst ha
      simp [List.dropWhile_cons]
    · have h10 : 10 ∈ t := by
        rcases List.mem_cons.mp h with h1 | h1
        · exact absurd h1.symm ha
        · exact h1
      simpa [List.dropWhile_cons, ha] using ih h10

theorem not_mem_takeWhile10 (b : List Nat) : 10 ∉ b.takeWhile (fun x => x != 10) := by
  intro hmem
  have := List.mem_takeWhile_imp hmem
  simp at this

theorem buffer_decomp (b : List Nat) (h : 10 ∈ b) :
    b = b.takeWhile (fun x => x != 10) ++ 10 :: (b.dropWhile (fun x => x != 10)).tail := by
  conv_lhs => rw [← List.takeWhile_append_dropWhile (fun x => x != 10) b]
  rw [← dropWhile_cons10 b h]

theorem splitNl_ne_nil (s : List Nat) : splitNl s ≠ [] := by
  cases s with
  | nil => simp [splitNl]
  | cons b t =>
    simp only [splitNl]
    split
    · simp
    · split <;> simp

theorem splitNl_of_not_mem (s : List Nat) (h : 10 ∉ s) : splitNl s = [s] := by
  induction s with
  | nil => rfl
  | cons b t ih =>
    have hb : b ≠ 10 := by
      intro hb; subst hb; exact h (List.mem_cons_self 10 t)
    have ht : 10 ∉ t := fun hm => h (List.mem_cons_of_mem _ hm)
    simp [splitNl, hb, ih ht]

theorem splitNl_prefix (m r : List Nat) (hm : 10 ∉ m) :
    splitNl (m ++ 10 :: r) = m :: splitNl r := by
  induction m with
  | nil => simp [splitNl]
  | cons b t ih =>
    have hb : b ≠ 10 := by
      intro hb; subst hb; exact hm (List.mem_cons_self 10 t)
    have ht : 10 ∉ t := fun hmm => hm (List.mem_cons_of_mem _ hmm)
    simp only [List.cons_append, splitNl, if_neg hb, List.append_eq, ih ht]

/-- Spec-side (from the spec's words): the messages a byte stream yields —
its newline-separated segments except the trailing one, with empty
segments dropped. -/
def msgsSpec (s : List Nat) : List (List Nat) :=
  ((splitNl s).dropLast).filter (fun m => !m.isEmpty)

/-- Spec-side (from the spec's words): the residual buffer a byte stream
leaves — the bytes after its last newline. -/
def residSpec (s : List Nat) : List Nat :=
  (splitNl s).getLast?.getD []

theorem extractLoop_eq_spec :
    ∀ n (b : List Nat), b.length ≤ n → extractLoop b = (msgsSpec b, residSpec b) := by
  intro n
  induction n with
  | zero =>
    intro b hb
    have : b = [] := List.length_eq_zero.mp (Nat.le_zero.mp hb)
    subst this
    simp [extractLoop, extractLoopFuel, msgsSpec, residSpec, splitNl]
  | succ n ih =>
    intro b hb
    rw [extractLoop_unfold]
    by_cases h : 10 ∈ b
    · rw [if_pos h]
      have hlt := tail_dropWhile_length_lt b h
      rw [ih _ (by omega)]
      have hsp : splitNl b =
          b.takeWhile (fun x => x != 10) ::
            splitNl ((b.dropWhile (fun x => x != 10)).tail) := by
        conv_lhs => rw [buffer_decomp b h]
        exact splitNl_prefix _ _ (not_mem_takeWhile10 b)
      have hne := splitNl_ne_nil ((b.dropWhile (fun x => x != 10)).tail)
      obtain ⟨u, us, hu⟩ : ∃ u us,
          splitNl ((b.dropWhile (fun x => x != 10)).tail) = u :: us := by
        cases hsp2 : splitNl ((b.dropWhile (fun x => x != 10)).tail) with
        | nil => exact absurd hsp2 hne
        | cons u us => exact ⟨u, us, rfl⟩
      simp only [msgsSpec, residSpec, hsp, hu, List.dropLast_cons₂,
        List.getLast?_cons_cons, List.filter_cons]
      cases hm : (b.takeWhile (fun x => x != 10)).isEmpty <;> simp [hm]
    · rw [if_neg h]
      simp [msgsSpec, residSpec, splitNl_of_not_mem b h]

theorem takeWhile_append_of_mem (s t : List Nat) (h : 10 ∈ s) :
    (s ++ t).takeWhile (fun x => x != 10) = s.takeWhile (fun x => x != 10) := by
  induction s with
  | nil => simp at h
  | cons a s2 ih =>
    by_cases ha : a = 10
    · subst ha
      simp [List.takeWhile_cons]
    · have h10 : 10 ∈ s2 := by
        rcases List.mem_cons.mp h with h1 | h1
        · exact absurd h1.symm ha
        · exact h1
      simp only [List.cons_append, List.takeWhile_cons]
      simp only [show ((a != 10) = true) from by simpa using ha, if_true]
      rw [ih h10]

theorem dropWhile_append_of_mem (s t : List Nat) (h : 10 ∈ s) :
    (s ++ t).dropWhile (fun x => x != 10) = s.dropWhile (fun x => x != 10) ++ t := by
  induction s with
  | nil => simp at h
  | cons a s2 ih =>
    by_cases ha : a = 10
    · subst ha
      simp [List.dropWhile_cons]
    · have h10 : 10 ∈ s2 := by
        rcases List.mem_cons.mp h with h1 | h1
        · exact absurd h1.symm ha
        · exact h1
      simp only [List.cons_append, List.dropWhile_cons]
      simp only [show ((a != 10) = true) from by simpa using ha, if_true]
      exact ih h10

/-- Feeding more bytes after a partially framed stream continues exactly
where the residual buffer left off. -/
theorem extractLoop_append :
    ∀ n (s : List Nat), s.length ≤ n → ∀ t : List Nat,
      extractLoop (s ++ t) =
        ((extractLoop s).1 ++ (extractLoop ((extractLoop s).2 ++ t)).1,
         (extractLoop ((extractLoop s).2 ++ t)).2) := by
  intro n
  induction n with
  | zero =>
    intro s hs t
    have : s = [] := List.length_eq_zero.mp (Nat.le_zero.mp hs)
    subst this
    simp [show extractLoop [] = ([], []) from rfl]
  | succ n ih =>
    intro s hs t
    by_cases h : 10 ∈ s
    · have hlt := tail_dropWhile_length_lt s h
      have hmem : 10 ∈ s ++ t := List.mem_append_left t h
      have hdrop : (s ++ t).dropWhile (fun x => x != 10) =
          10 :: ((s.dropWhile (fun x => x != 10)).tail ++ t) := by
        rw [dropWhile_append_of_mem s t h]
        conv_lhs => rw [dropWhile_cons10 s h]
        rw [List.cons_append]
      conv_lhs => rw [extractLoop_unfold, if_pos hmem]
      conv_rhs => rw [extractLoop_unfold s, if_pos h]
      rw [takeWhile_append_of_mem s t h, hdrop]
      simp only [List.tail_cons]
      rw [ih _ (by omega) t]
      cases hm : (s.takeWhile (fun x => x != 10)).isEmpty <;> simp [hm]
    · have hs' : extractLoop s = ([], s) := by
        rw [extractLoop_unfold, if_neg h]
      rw [hs']
      simp

/-- Chaining the framing step over a nonempty chunk list frames the
concatenated stream. -/
theorem feedAll_eq_extract (cs : List (List Nat)) (hcs : cs ≠ []) :
    ∀ b0 : List Nat, feedAll b0 cs = extractLoop (b0 ++ cs.flatten) := by
  induction cs with
  | nil => exact absurd rfl hcs
  | cons c cs2 ih =>
    intro b0
    cases cs2 with
    | nil =>
      show ((extractLoop (b0 ++ c)).1 ++ [], (extractLoop (b0 ++ c)).2) = _
      simp only [List.flatten_cons, List.flatten_nil, List.append_nil]
    | cons c2 cs3 =>
      have h2 : c2 :: cs3 ≠ [] := by simp
      have hstep : feedAll b0 (c :: c2 :: cs3) =
          ((extractLoop (b0 ++ c)).1 ++ (feedAll (extractLoop (b0 ++ c)).2 (c2 :: cs3)).1,
           (feedAll (extractLoop (b0 ++ c)).2 (c2 :: cs3)).2) := rfl
      rw [hstep, ih h2]
      rw [show b0 ++ (c :: c2 :: cs3).flatten = (b0 ++ c) ++ (c2 :: cs3).flatten by
        simp [List.flatten_cons, List.append_assoc]]
      rw [extractLoop_append (b0 ++ c).length _ (le_refl _)]

/-- C1: for every initial receive-buffer state and every fragmentation of
the byte stream into chunks fed successively to the framing step of
`_process_data`, the extracted messages (in order) are exactly the
newline-separated segments of the concatenated stream with empty segments
dropped, and the residual buffer is exactly the bytes after the last
newline — so chunk boundaries never affect which messages are extracted
or their order. (The buffer hypothesis covers all reachable buffer
states: a receive buffer is always the newline-free residue of earlier
framing, and for a nonempty chunk list no buffer hypothesis is needed at
all.) -/
theorem c1_framing_fragmentation_invariant (b0 : List Nat) (cs : List (List Nat))
    (h : 10 ∉ b0 ∨ cs ≠ []) :
    feedAll b0 cs = (msgsSpec (b0 ++ cs.flatten), residSpec (b0 ++ cs.flatten)) := by
  cases cs with
  | nil =>
    have hb : 10 ∉ b0 := by
      rcases h with h1 | h1
      · exact h1
      · exact absurd rfl h1
    simp only [feedAll, List.flatten_nil, List.append_nil, msgsSpec, residSpec,
      splitNl_of_not_mem b0 hb]
    simp
  | cons c cs2 =>
    rw [feedAll_eq_extract (c :: cs2) (by simp) b0]
    exact extractLoop_eq_spec (b0 ++ (c :: cs2).flatten).length _ (le_refl _)

/-- Witness for C1 at a concrete fragmented stream: buffer "4" plus chunks
"2\nSE", "", "01\n\nX" yields messages "42", "SE01" and residue "X". -/
theorem c1_framing_fragmentation_invariant_witness :
    (10 ∉ [52] ∨ ([[50, 10, 83, 69], [], [48, 49, 10, 10, 88]] : List (List Nat)) ≠ []) ∧
      feedAll [52] [[50, 10, 83, 69], [], [48, 49, 10, 10, 88]] =
        (msgsSpec ([52] ++ [[50, 10, 83, 69], [], [48, 49, 10, 10, 88]].flatten),
         residSpec ([52] ++ [[50, 10, 83, 69], [], [48, 49, 10, 10, 88]].flatten)) :=
  ⟨by decide, c1_framing_fragmentation_invariant [52] _ (by decide)⟩

/-! ## C2: dispatch priority -/

/-- C2: `_process_message` invokes exactly the first matching handler in
the fixed strategy order — (canonical id, kind), then (raw tag, kind),
then (canonical id, legacy alias of the kind), then (raw tag, legacy
alias), where only the event, response and error kinds have a legacy
alias; the key pair actually dispatched to is the first candidate with a
registered handler (so no later strategy fires once an earlier one
matched), and the handler invoked is the one registered under that key
pair. -/
theorem c2_dispatch_priority_order (handlers : List (String × List (String × Nat)))
    (device_id : String) (message_type raw_device_id : Char) (content : List Char) :
    ((_process_message handlers device_id message_type raw_device_id content).map
        (fun c => (c.dev_key, c.kind_key))) =
      (dispatchCandidates device_id message_type raw_device_id).find?
        (fun p => (hlookup handlers p.1 p.2).isSome) ∧
    (∀ c, _process_message handlers device_id message_type raw_device_id content = some c →
      hlookup handlers c.dev_key c.kind_key = some c.handler) := by
  unfold _process_message dispatchCandidates
  cases h1 : hlookup handlers device_id message_type.toString with
  | some v =>
    refine ⟨by simp [List.find?_cons, h1], ?_⟩
    intro c hc
    simp only [h1, Option.some.injEq] at hc
    subst hc
    exact h1
  | none =>
    cases h2 : hlookup handlers raw_device_id.toString message_type.toString with
    | some v =>
      refine ⟨by simp [List.find?_cons, h1, h2], ?_⟩
      intro c hc
      simp only [h1, h2, Option.some.injEq] at hc
      subst hc
      exact h2
    | none =>
      cases hl : legacyType message_type with
      | none =>
        refine ⟨by simp [List.find?_cons, h1, h2, hl], ?_⟩
        intro c hc
        simp only [h1, h2, hl] at hc
        exact Option.noConfusion hc
      | some lt =>
        cases h3 : hlookup handlers device_id lt with
        | some v =>
          refine ⟨by simp [List.find?_cons, h1, h2, hl, h3], ?_⟩
          intro c hc
          simp only [h1, h2, hl, h3, Option.some.injEq] at hc
          subst hc
          exact h3
        | none =>
          cases h4 : hlookup handlers raw_device_id.toString lt with
          | some v =>
            refine ⟨by simp [List.find?_cons, h1, h2, hl, h3, h4], ?_⟩
            intro c hc
            simp only [h1, h2, hl, h3, h4, Option.some.injEq] at hc
            subst hc
            exact h4
          | none =>
            refine ⟨by simp [List.find?_cons, h1, h2, hl, h3, h4], ?_⟩
            intro c hc
            simp only [h1, h2, hl, h3, h4] at hc
            exact Option.noConfusion hc

/-! ## Association-list lemmas -/

theorem alUpdate_lookup_self {α : Type} (l : List (String × α)) (k : String) (v : α) :
    (alUpdate l k v).lookup k = some v := by
  induction l with
  | nil => simp [alUpdate, List.lookup]
  | cons e t ih =>
    obtain ⟨k2, v2⟩ := e
    by_cases h : k2 = k
    · simp [alUpdate, h, List.lookup]
    · have h2 : k ≠ k2 := fun hh => h hh.symm
      simp [alUpdate, h, List.lookup, beq_false_of_ne h2, ih]

theorem alUpdate_lookup_ne {α : Type} (l : List (String × α)) (k k3 : String) (v : α)
    (h : k3 ≠ k) : (alUpdate l k v).lookup k3 = l.lookup k3 := by
  induction l with
  | nil => simp [alUpdate, List.lookup, beq_false_of_ne h]
  | cons e t ih =>
    obtain ⟨k2, v2⟩ := e
    by_cases h2 : k2 = k
    · subst h2
      simp [alUpdate, List.lookup, beq_false_of_ne h]
    · simp [alUpdate, h2, List.lookup, ih]

theorem alErase_lookup_ne {α : Type} (l : List (String × α)) (k k3 : String)
    (h : k3 ≠ k) : (alErase l k).lookup k3 = l.lookup k3 := by
  induction l with
  | nil => simp [alErase]
  | cons e t ih =>
    obtain ⟨k2, v2⟩ := e
    by_cases h2 : k2 = k
    · subst h2
      simp [alErase, List.lookup, beq_false_of_ne h]
    · simp [alErase, h2, List.lookup, ih]

theorem mem_of_lookup_eq_some {α : Type} (l : List (String × α)) (k : String) (v : α)
    (h : l.lookup k = some v) : (k, v) ∈ l := by
  induction l with
  | nil => simp [List.lookup] at h
  | cons e t ih =>
    obtain ⟨k2, v2⟩ := e
    by_cases h2 : k = k2
    · subst h2
      simp [List.lookup] at h
      subst h
      exact List.mem_cons_self _ _
    · simp [List.lookup, beq_false_of_ne h2] at h
      exact List.mem_cons_of_mem _ (ih h)

theorem lookup_eq_none_of_not_mem_keys {α : Type} (l : List (String × α)) (k : String)
    (h : k ∉ l.map Prod.fst) : l.lookup k = none := by
  induction l with
  | nil => simp [List.lookup]
  | cons e t ih =>
    obtain ⟨k2, v2⟩ := e
    have hk : k ≠ k2 := by
      intro hh
      subst hh
      exact h (by simp)
    have ht : k ∉ t.map Prod.fst := fun hm => h (by simp [hm])
    simp [List.lookup, beq_false_of_ne hk, ih ht]

theorem alErase_lookup_self_of_nodup {α : Type} (l : List (String × α)) (k : String)
    (h : (l.map Prod.fst).Nodup) : (alErase l k).lookup k = none := by
  induction l with
  | nil => simp [alErase, List.lookup]
  | cons e t ih =>
    obtain ⟨k2, v2⟩ := e
    simp only [List.map_cons, List.nodup_cons] at h
    by_cases h2 : k2 = k
    · subst h2
      simp only [alErase, if_pos rfl]
      exact lookup_eq_none_of_not_mem_keys t k2 h.1
    · have hk : k ≠ k2 := fun hh => h2 hh.symm
      simp [alErase, h2, List.lookup, beq_false_of_ne hk, ih h.2]

theorem alErase_keys_sublist {α : Type} (l : List (String × α)) (k : String) :
    ((alErase l k).map Prod.fst).Sublist (l.map Prod.fst) := by
  induction l with
  | nil => simp [alErase]
  | cons e t ih =>
    obtain ⟨k2, v2⟩ := e
    by_cases h2 : k2 = k
    · simp only [alErase, if_pos h2, List.map_cons]
      exact List.sublist_cons_of_sublist _ (List.Sublist.refl _)
    · simp only [alErase, if_neg h2, List.map_cons]
      exact List.Sublist.cons₂ _ ih

theorem alErase_nodup_keys {α : Type} (l : List (String × α)) (k : String)
    (h : (l.map Prod.fst).Nodup) : ((alErase l k).map Prod.fst).Nodup :=
  (alErase_keys_sublist l k).nodup h

theorem alErase_mem {α : Type} (l : List (String × α)) (k : String) (e : String × α)
    (h : e ∈ alErase l k) : e ∈ l := by
  induction l with
  | nil => simp [alErase] at h
  | cons e2 t ih =>
    obtain ⟨k2, v2⟩ := e2
    by_cases h2 : k2 = k
    · simp only [alErase, if_pos h2] at h
      exact List.mem_cons_of_mem _ h
    · simp only [alErase, if_neg h2] at h
      rcases List.mem_cons.mp h with h3 | h3
      · exact h3 ▸ List.mem_cons_self _ _
      · exact List.mem_cons_of_mem _ (ih h3)

/-! ## Invariants of the message loop -/

theorem learnDevice_handlers (st : TCPState) (cid : String) (c : Char) :
    (learnDevice st cid c).device_handlers = st.device_handlers := by
  unfold learnDevice
  cases st.clients.lookup cid with
  | none => rfl
  | some info => by_cases h : info.device_id = none <;> simp [h]

theorem learnDevice_buffers (st : TCPState) (cid : String) (c : Char) :
    (learnDevice st cid c).message_buffers = st.message_buffers := by
  unfold learnDevice
  cases st.clients.lookup cid with
  | none => rfl
  | some info => by_cases h : info.device_id = none <;> simp [h]

theorem learnDevice_of_absent (st : TCPState) (cid : String) (c : Char)
    (h : st.clients.lookup cid = none) : learnDevice st cid c = st := by
  unfold learnDevice
  rw [h]

theorem learnDevice_of_set (st : TCPState) (cid : String) (c : Char) (info : ClientInfo)
    (d : String) (h : st.clients.lookup cid = some info) (hd : info.device_id = some d) :
    learnDevice st cid c = st := by
  unfold learnDevice
  rw [h]
  simp [hd]

theorem processMessages_handlers (cid : String) :
    ∀ (ms : List (List Nat)) (st : TCPState),
      (processMessages st cid ms).1.device_handlers = st.device_handlers := by
  intro ms
  induction ms with
  | nil => intro st; rfl
  | cons m ms ih =>
    intro st
    simp only [processMessages]
    cases hd : utf8Decode m with
    | none => exact ih st
    | some dm =>
      cases dm with
      | nil => exact ih st
      | cons c0 dm2 =>
        cases dm2 with
        | nil => exact ih st
        | cons c1 cs =>
          simp only []
          rw [ih (learnDevice st cid c0)]
          exact learnDevice_handlers st cid c0

theorem processMessages_buffers (cid : String) :
    ∀ (ms : List (List Nat)) (st : TCPState),
      (processMessages st cid ms).1.message_buffers = st.message_buffers := by
  intro ms
  induction ms with
  | nil => intro st; rfl
  | cons m ms ih =>
    intro st
    simp only [processMessages]
    cases hd : utf8Decode m with
    | none => exact ih st
    | some dm =>
      cases dm with
      | nil => exact ih st
      | cons c0 dm2 =>
        cases dm2 with
        | nil => exact ih st
        | cons c1 cs =>
          simp only []
          rw [ih (learnDevice st cid c0)]
          exact learnDevice_buffers st cid c0

/-- The dispatched calls depend only on the handler table, never on the
Connection Table or the buffers. -/
theorem processMessages_calls_congr (cid : String) :
    ∀ (ms : List (List Nat)) (st st2 : TCPState),
      st.device_handlers = st2.device_handlers →
      (processMessages st cid ms).2 = (processMessages st2 cid ms).2 := by
  intro ms
  induction ms with
  | nil => intro st st2 _; rfl
  | cons m ms ih =>
    intro st st2 hh
    simp only [processMessages]
    cases hd : utf8Decode m with
    | none => exact ih st st2 hh
    | some dm =>
      cases dm with
      | nil => exact ih st st2 hh
      | cons c0 dm2 =>
        cases dm2 with
        | nil => exact ih st st2 hh
        | cons c1 cs =>
          simp only []
          have hh2 : (learnDevice st cid c0).device_handlers
              = (learnDevice st2 cid c0).device_handlers := by
            rw [learnDevice_handlers, learnDevice_handlers, hh]
          rw [ih (learnDevice st cid c0) (learnDevice st2 cid c0) hh2]
          rw [learnDevice_handlers, learnDevice_handlers, hh]

/-- When the connection is absent from the Connection Table, the message
loop never touches the table (identity learning is skipped). -/
theorem processMessages_clients_of_absent (cid : String) :
    ∀ (ms : List (List Nat)) (st : TCPState),
      st.clients.lookup cid = none →
      (processMessages st cid ms).1.clients = st.clients := by
  intro ms
  induction ms with
  | nil => intro st _; rfl
  | cons m ms ih =>
    intro st h
    simp only [processMessages]
    cases hd : utf8Decode m with
    | none => exact ih st h
    | some dm =>
      cases dm with
      | nil => exact ih st h
      | cons c0 dm2 =>
        cases dm2 with
        | nil => exact ih st h
        | cons c1 cs =>
          simp only []
          rw [learnDevice_of_absent st cid c0 h]
          exact ih st h

/-- Once the connection's device identity is set, the message loop leaves
the Connection Table unchanged (first-writer-wins). -/
theorem processMessages_clients_of_set (cid : String) :
    ∀ (ms : List (List Nat)) (st : TCPState) (info : ClientInfo) (d : String),
      st.clients.lookup cid = some info → info.device_id = some d →
      (processMessages st cid ms).1.clients = st.clients := by
  intro ms
  induction ms with
  | nil => intro st _ _ _ _; rfl
  | cons m ms ih =>
    intro st info d h hdid
    simp only [processMessages]
    cases hd : utf8Decode m with
    | none => exact ih st info d h hdid
    | some dm =>
      cases dm with
      | nil => exact ih st info d h hdid
      | cons c0 dm2 =>
        cases dm2 with
        | nil => exact ih st info d h hdid
        | cons c1 cs =>
          simp only []
          rw [learnDevice_of_set st cid c0 info d h hdid]
          exact ih st info d h hdid

/-! ## C3: device identity is sticky -/

/-- `_process_data` leaves the Connection Table unchanged once the
connection's identity is set. -/
theorem _process_data_clients_of_set (st : TCPState) (cid : String) (data : List Nat)
    (info : ClientInfo) (d : String)
    (h : st.clients.lookup cid = some info) (hd : info.device_id = some d) :
    (_process_data st cid data).1.clients = st.clients := by
  unfold _process_data
  exact processMessages_clients_of_set cid _ _ info d h hd

/-- C3: once a connection's device identity is non-null (set at accept
time by the address pre-registration or learned from the first parsed
message), feeding any further sequence of data chunks — hence any further
parsed messages with arbitrary tags — through `_process_data` on that
connection leaves the stored identity equal to the first value set. -/
theorem c3_device_identity_sticky (chunks : List (List Nat)) (st : TCPState)
    (cid : String) (info : ClientInfo) (d : String)
    (h : st.clients.lookup cid = some info) (hd : info.device_id = some d) :
    ∃ info2,
      (chunks.foldl (fun s dat => (_process_data s cid dat).1) st).clients.lookup cid
          = some info2 ∧
        info2.device_id = some d := by
  induction chunks generalizing st info with
  | nil => exact ⟨info, h, hd⟩
  | cons dat rest ih =>
    rw [List.foldl_cons]
    have hc : (_process_data st cid dat).1.clients = st.clients :=
      _process_data_clients_of_set st cid dat info d h hd
    exact ih (_process_data st cid dat).1 info (by rw [hc]; exact h) hd

/-- Witness for C3: the pre-registered sorter connection keeps identity
"sort_controller" even after receiving messages tagged G and H. -/
theorem c3_device_identity_sticky_witness :
    (sampleState.clients.lookup "192.168.0.10:5000" =
        some { address := ("192.168.0.10", 5000), device_id := some "sort_controller",
               last_activity := 0, closeRaises := false, sendRaises := false }) ∧
    (∃ info2,
      (([[71, 69, 49, 10], [72, 69, 50, 10]].foldl
          (fun s dat => (_process_data s "192.168.0.10:5000" dat).1)
          sampleState).clients.lookup "192.168.0.10:5000") = some info2 ∧
        info2.device_id = some "sort_controller") :=
  ⟨by decide,
   c3_device_identity_sticky [[71, 69, 49, 10], [72, 69, 50, 10]] sampleState
     "192.168.0.10:5000"
     { address := ("192.168.0.10", 5000), device_id := some "sort_controller",
       last_activity := 0, closeRaises := false, sendRaises := false }
     "sort_controller" (by decide) (by decide)⟩

/-! ## C8: short decoded lines are discarded -/

/-- A framed line whose decoded text is shorter than two characters is
skipped by the message loop: no state change, no dispatch. -/
theorem processMessages_cons_short (cid : String) (m : List Nat) (s : List Char)
    (hdec : utf8Decode m = some s) (hlen : s.length < 2) :
    ∀ (st : TCPState) (rest : List (List Nat)),
      processMessages st cid (m :: rest) = processMessages st cid rest := by
  intro st rest
  cases s with
  | nil => simp only [processMessages, hdec]
  | cons a t =>
    cases t with
    | nil => simp only [processMessages, hdec]
    | cons b t2 => simp at hlen; omega

/-- C8: a framed line whose decoded text has fewer than two characters is
discarded by `_process_data`'s message loop — the Dispatcher is never
invoked for it, the state (hence the Connection Table: the connection is
not closed) is untouched, and the surrounding messages of the same chunk
are processed exactly as if the short line were absent. -/
theorem c8_short_message_never_dispatched (st : TCPState) (cid : String)
    (ms1 ms2 : List (List Nat)) (m : List Nat) (s : List Char)
    (hdec : utf8Decode m = some s) (hlen : s.length < 2) :
    processMessages st cid (ms1 ++ m :: ms2) = processMessages st cid (ms1 ++ ms2) ∧
    processMessages st cid [m] = (st, []) := by
  constructor
  · induction ms1 generalizing st with
    | nil =>
      simp only [List.nil_append]
      exact processMessages_cons_short cid m s hdec hlen st ms2
    | cons a ms1' ih =>
      simp only [List.cons_append, processMessages]
      cases hda : utf8Decode a with
      | none => exact ih st
      | some dm =>
        cases dm with
        | nil => exact ih st
        | cons c0 dm2 =>
          cases dm2 with
          | nil => exact ih st
          | cons c1 cs =>
            simp only [List.append_eq]
            rw [ih (learnDevice st cid c0)]
  · rw [processMessages_cons_short cid m s hdec hlen st []]
    rfl

/-- Witness for C8: the one-character line "A" (byte 65) is dropped
between two well-formed sorter messages. -/
theorem c8_short_message_never_dispatched_witness :
    (utf8Decode [65] = some ['A'] ∧ (['A'] : List Char).length < 2) ∧
    (processMessages sampleState "192.168.0.10:5000"
        ([[83, 69, 48]] ++ [65] :: [[83, 69, 49]]) =
      processMessages sampleState "192.168.0.10:5000" ([[83, 69, 48]] ++ [[83, 69, 49]]) ∧
     processMessages sampleState "192.168.0.10:5000" [[65]] = (sampleState, [])) :=
  ⟨⟨by decide, by decide⟩,
   c8_short_message_never_dispatched sampleState "192.168.0.10:5000"
     [[83, 69, 48]] [[83, 69, 49]] [65] ['A'] (by decide) (by decide)⟩

/-! ## C10: processing data for an absent connection id -/

/-- C10: `_process_data` applied under a client id absent from the
Connection Table still frames and dispatches exactly as for a live
connection with the same (absent) buffer: the Connection Table is left
untouched (only the identity-learning step checks membership and it is
skipped), the dispatched calls and resulting buffers coincide with those
of a state in which the connection exists, and a fresh buffer entry is
created under the id. -/
theorem c10_absent_client_still_processes (st : TCPState) (cid : String)
    (data : List Nat) (info : ClientInfo)
    (h : st.clients.lookup cid = none) :
    (_process_data st cid data).1.clients = st.clients ∧
    (_process_data st cid data).2 =
      (_process_data { st with clients := alUpdate st.clients cid info } cid data).2 ∧
    (_process_data st cid data).1.message_buffers =
      (_process_data { st with clients := alUpdate st.clients cid info } cid data).1.message_buffers ∧
    ((_process_data st cid data).1.message_buffers.lookup cid).isSome = true := by
  refine ⟨?_, ?_, ?_, ?_⟩
  · unfold _process_data
    exact processMessages_clients_of_absent cid _ _ h
  · unfold _process_data
    exact processMessages_calls_congr cid _ _ _ rfl
  · unfold _process_data
    rw [processMessages_buffers, processMessages_buffers]
  · unfold _process_data
    rw [processMessages_buffers]
    rw [alUpdate_lookup_self]
    rfl

/-- A hypothetical entry for the ghost connection id used by the C10
witness. -/
def ghostInfo : ClientInfo :=
  { address := ("10.9.9.9", 1234), device_id := none, last_activity := 7,
    closeRaises := false, sendRaises := false }

/-- `sampleState` with the ghost connection inserted live. -/
def sampleStateWithGhost : TCPState :=
  { sampleState with clients := alUpdate sampleState.clients "10.9.9.9:1234" ghostInfo }

/-- Witness for C10: data arriving under an evicted/unknown client id is
framed and dispatched just as for a live connection. -/
theorem c10_absent_client_still_processes_witness :
    (sampleState.clients.lookup "10.9.9.9:1234" = none) ∧
    ((_process_data sampleState "10.9.9.9:1234" [83, 69, 48, 10, 88]).1.clients
        = sampleState.clients ∧
      (_process_data sampleState "10.9.9.9:1234" [83, 69, 48, 10, 88]).2 =
        (_process_data sampleStateWithGhost "10.9.9.9:1234" [83, 69, 48, 10, 88]).2 ∧
      (_process_data sampleState "10.9.9.9:1234" [83, 69, 48, 10, 88]).1.message_buffers =
        (_process_data sampleStateWithGhost "10.9.9.9:1234" [83, 69, 48, 10, 88]).1.message_buffers ∧
      ((_process_data sampleState "10.9.9.9:1234"
          [83, 69, 48, 10, 88]).1.message_buffers.lookup "10.9.9.9:1234").isSome = true) :=
  ⟨by decide,
   c10_absent_client_still_processes sampleState "10.9.9.9:1234" [83, 69, 48, 10, 88]
     ghostInfo (by decide)⟩

/-! ## C4: eviction vs. socket-close errors (code bug) -/

/-- C4 (refuting the claim on the code): `_remove_client`'s removal
statements sit after `socket.close()` inside the same `try` block, so
when closing the socket raises, the exception handler is entered before
`del self.clients[client_id]` runs — the Connection Table entry and the
receive buffer survive the eviction attempt, contradicting the claimed
"removal happens even when close raises". Evaluated at a concrete
connection whose close raises: the state is entirely unchanged. -/
theorem c4_close_error_prevents_removal :
    _remove_client
      { clients := [("10.0.0.1:7000",
          { address := ("10.0.0.1", 7000), device_id := some "env_controller",
            last_activity := 5, closeRaises := true, sendRaises := false })],
        message_buffers := [("10.0.0.1:7000", [72])],
        device_handlers := [] } "10.0.0.1:7000" =
      { clients := [("10.0.0.1:7000",
          { address := ("10.0.0.1", 7000), device_id := some "env_controller",
            last_activity := 5, closeRaises := true, sendRaises := false })],
        message_buffers := [("10.0.0.1:7000", [72])],
        device_handlers := [] } := by decide

/-! ## C5: eviction is idempotent -/

/-- Eviction of an id the Connection Table does not hold changes
nothing. -/
theorem _remove_client_of_lookup_none (st : TCPState) (cid : String)
    (h : st.clients.lookup cid = none) : _remove_client st cid = st := by
  unfold _remove_client
  rw [h]

/-- C5: evicting a connection id twice in a row yields the same state as
evicting it once, and evicting an id absent from the Connection Table is
a complete no-op (no state change, no error). The key-uniqueness
hypothesis is the Python dict invariant. -/
theorem c5_remove_client_idempotent (st : TCPState) (cid : String)
    (hnd : (st.clients.map Prod.fst).Nodup) :
    _remove_client (_remove_client st cid) cid = _remove_client st cid ∧
    (st.clients.lookup cid = none → _remove_client st cid = st) := by
  constructor
  · cases hl : st.clients.lookup cid with
    | none =>
      have h1 : _remove_client st cid = st := _remove_client_of_lookup_none st cid hl
      rw [h1]
      exact h1
    | some info =>
      cases hc : info.closeRaises with
      | true =>
        have h1 : _remove_client st cid = st := by
          unfold _remove_client
          rw [hl]
          simp [hc]
        rw [h1]
        exact h1
      | false =>
        have h1 : _remove_client st cid =
            { st with clients := alErase st.clients cid,
                      message_buffers := alErase st.message_buffers cid } := by
          unfold _remove_client
          rw [hl]
          simp [hc]
        rw [h1]
        apply _remove_client_of_lookup_none
        show (alErase st.clients cid).lookup cid = none
        exact alErase_lookup_self_of_nodup st.clients cid hnd
  · exact _remove_client_of_lookup_none st cid

/-- Witness for C5 on a concrete two-entry table. -/
theorem c5_remove_client_idempotent_witness :
    ((sampleState.clients.map Prod.fst).Nodup) ∧
    (_remove_client (_remove_client sampleState "192.168.0.11:5001") "192.168.0.11:5001"
        = _remove_client sampleState "192.168.0.11:5001" ∧
      (sampleState.clients.lookup "192.168.0.11:5001" = none →
        _remove_client sampleState "192.168.0.11:5001" = sampleState)) :=
  ⟨by decide, c5_remove_client_idempotent sampleState "192.168.0.11:5001" (by decide)⟩

/-! ## C6: the liveness sweep -/

theorem alErase_of_lookup_none {α : Type} (l : List (String × α)) (k : String)
    (h : l.lookup k = none) : alErase l k = l := by
  induction l with
  | nil => rfl
  | cons e t ih =>
    obtain ⟨k2, v2⟩ := e
    by_cases h2 : k2 = k
    · subst h2
      simp [List.lookup] at h
    · have hk : k ≠ k2 := fun hh => h2 hh.symm
      simp only [List.lookup, beq_false_of_ne hk] at h
      simp [alErase, h2, ih h]

theorem lookup_isSome_of_mem_keys {α : Type} (l : List (String × α)) (k : String)
    (h : k ∈ l.map Prod.fst) : (l.lookup k).isSome = true := by
  induction l with
  | nil => simp at h
  | cons e t ih =>
    obtain ⟨k2, v2⟩ := e
    by_cases h2 : k = k2
    · subst h2
      simp [List.lookup]
    · have ht : k ∈ t.map Prod.fst := by
        simp only [List.map_cons, List.mem_cons] at h
        rcases h with h3 | h3
        · exact absurd h3 h2
        · exact h3
      simp [List.lookup, beq_false_of_ne h2, ih ht]

theorem lookup_of_mem_of_nodup {α : Type} (l : List (String × α)) (k : String) (v : α)
    (hnd : (l.map Prod.fst).Nodup) (h : (k, v) ∈ l) : l.lookup k = some v := by
  induction l with
  | nil => simp at h
  | cons e t ih =>
    obtain ⟨k2, v2⟩ := e
    simp only [List.map_cons, List.nodup_cons] at hnd
    rcases List.mem_cons.mp h with h3 | h3
    · obtain ⟨hk, hv⟩ := Prod.ext_iff.mp h3
      subst hk
      subst hv
      simp [List.lookup]
    · have hk : k ≠ k2 := by
        intro hh
        subst hh
        exact hnd.1 (List.mem_map.mpr ⟨(k, v), h3, rfl⟩)
      simp [List.lookup, beq_false_of_ne hk, ih hnd.2 h3]

/-- Every element of the Connection Table after an eviction was already
in it before. -/
theorem _remove_client_clients_subset (st : TCPState) (k : String)
    (p : String × ClientInfo) (hp : p ∈ (_remove_client st k).clients) :
    p ∈ st.clients := by
  unfold _remove_client at hp
  cases hl : st.clients.lookup k with
  | none => rw [hl] at hp; exact hp
  | some info =>
    rw [hl] at hp
    cases hc : info.closeRaises with
    | true => simpa [hc] using hp
    | false =>
      simp only [hc, Bool.false_eq_true, if_false] at hp
      exact alErase_mem _ _ _ hp

/-- When no socket close raises, eviction acts on the Connection Table as
plain deletion. -/
theorem _remove_client_clients_eq (st : TCPState) (k : String)
    (hall : ∀ p ∈ st.clients, p.2.closeRaises = false) :
    (_remove_client st k).clients = alErase st.clients k := by
  unfold _remove_client
  cases hl : st.clients.lookup k with
  | none =>
    rw [alErase_of_lookup_none st.clients k hl]
  | some info =>
    have hc : info.closeRaises = false := hall (k, info) (mem_of_lookup_eq_some _ _ _ hl)
    simp [hc]

/-- Folding eviction over a list of ids deletes exactly those ids from
the Connection Table (no close errors, unique keys). -/
theorem foldRemove_lookup :
    ∀ (ks : List String) (st : TCPState) (cid : String),
      (st.clients.map Prod.fst).Nodup →
      (∀ p ∈ st.clients, p.2.closeRaises = false) →
      (ks.foldl _remove_client st).clients.lookup cid =
        if cid ∈ ks then none else st.clients.lookup cid := by
  intro ks
  induction ks with
  | nil =>
    intro st cid _ _
    simp
  | cons k ks ih =>
    intro st cid hnd hall
    have hcl : (_remove_client st k).clients = alErase st.clients k :=
      _remove_client_clients_eq st k hall
    have hnd2 : ((_remove_client st k).clients.map Prod.fst).Nodup := by
      rw [hcl]
      exact alErase_nodup_keys _ _ hnd
    have hall2 : ∀ p ∈ (_remove_client st k).clients, p.2.closeRaises = false :=
      fun p hp => hall p (_remove_client_clients_subset st k p hp)
    rw [List.foldl_cons, ih _ cid hnd2 hall2, hcl]
    by_cases hmem : cid ∈ k :: ks
    · rw [if_pos hmem]
      by_cases hks : cid ∈ ks
      · rw [if_pos hks]
      · rw [if_neg hks]
        have hck : cid = k := by
          rcases List.mem_cons.mp hmem with h3 | h3
          · exact h3
          · exact absurd h3 hks
        subst hck
        exact alErase_lookup_self_of_nodup _ _ hnd
    · rw [if_neg hmem]
      have hk : cid ≠ k := fun hh => hmem (hh ▸ List.mem_cons_self _ _)
      have hks : cid ∉ ks := fun hh => hmem (List.mem_cons_of_mem _ hh)
      rw [if_neg hks]
      exact alErase_lookup_ne _ _ _ hk

/-- C6: a sweep cycle with timeout 600 evicts (via the `_remove_client`
eviction of section 4.7, which `_cleanup_inactive_clients` folds over the
collected ids) exactly the connections whose idle time strictly exceeds
600 — an entry idle 601 time-units is deleted, one idle 599 (or exactly
600) survives unchanged. Hypotheses: the Python dict key-uniqueness
invariant, and close() not raising (otherwise the section 4.7 bug of C4
blocks the deletion). -/
theorem c6_sweep_evicts_exactly_timeouts (st : TCPState) (t : Nat) (cid : String)
    (hnd : (st.clients.map Prod.fst).Nodup)
    (hall : ∀ p ∈ st.clients, p.2.closeRaises = false) :
    (_cleanup_inactive_clients st t 600).clients.lookup cid =
      match st.clients.lookup cid with
      | none => none
      | some info => if 600 < t - info.last_activity then none else some info := by
  unfold _cleanup_inactive_clients
  rw [foldRemove_lookup _ st cid hnd hall]
  cases hl : st.clients.lookup cid with
  | none =>
    have hnk : cid ∉ (st.clients.filter
        (fun p => decide (600 < t - p.2.last_activity))).map Prod.fst := by
      intro hmem
      obtain ⟨p, hp, hpk⟩ := List.mem_map.mp hmem
      have hpc : p ∈ st.clients := (List.mem_filter.mp hp).1
      have := lookup_isSome_of_mem_keys st.clients cid
        (List.mem_map.mpr ⟨p, hpc, hpk⟩)
      rw [hl] at this
      simp at this
    rw [if_neg hnk]
  | some info =>
    by_cases hidle : 600 < t - info.last_activity
    · have hmem : cid ∈ (st.clients.filter
          (fun p => decide (600 < t - p.2.last_activity))).map Prod.fst := by
        refine List.mem_map.mpr ⟨(cid, info), ?_, rfl⟩
        refine List.mem_filter.mpr ⟨mem_of_lookup_eq_some _ _ _ hl, ?_⟩
        simpa using hidle
      rw [if_pos hmem]
      simp [hidle]
    · have hnk : cid ∉ (st.clients.filter
          (fun p => decide (600 < t - p.2.last_activity))).map Prod.fst := by
        intro hmem
        obtain ⟨p, hp, hpk⟩ := List.mem_map.mp hmem
        obtain ⟨hpc, hpred⟩ := List.mem_filter.mp hp
        have hpe : p = (cid, info) := by
          obtain ⟨pk, pv⟩ := p
          simp only at hpk
          subst hpk
          have hlk := lookup_of_mem_of_nodup st.clients pk pv hnd hpc
          rw [hl] at hlk
          injection hlk with hiv
          rw [hiv]
        subst hpe
        simp only at hpred
        rw [decide_eq_true_eq] at hpred
        exact hidle hpred
      rw [if_neg hnk]
      simp [hidle]

/-- Witness for C6 at time 601 over `sampleState`: the connection idle
for 601 units (last activity 0) is evicted; by the same theorem at the
other id, the one idle 599 units survives. -/
theorem c6_sweep_evicts_exactly_timeouts_witness :
    ((sampleState.clients.map Prod.fst).Nodup ∧
      (∀ p ∈ sampleState.clients, p.2.closeRaises = false)) ∧
    ((_cleanup_inactive_clients sampleState 601 600).clients.lookup "192.168.0.10:5000" =
      match sampleState.clients.lookup "192.168.0.10:5000" with
      | none => none
      | some info => if 600 < 601 - info.last_activity then none else some info) :=
  ⟨⟨by decide, by decide⟩,
   c6_sweep_evicts_exactly_timeouts sampleState 601 "192.168.0.10:5000"
     (by decide) (by decide)⟩

/-! ## C7: outbound send appends exactly one newline -/

/-- C7: with a connected matching client whose socket write succeeds,
`send_message` reports success, writes the command terminated by exactly
one newline — the command itself when it already ends with a newline,
the command plus one appended newline otherwise, so sending a command
with and without the trailing newline puts identical bytes on the wire —
and refreshes the connection's last-activity timestamp. -/
theorem c7_send_appends_exactly_one_newline (st : TCPState) (now : Nat) (dev : String)
    (command : List Char) (cid : String) (info : ClientInfo)
    (hfind : _find_client_by_device st dev = some cid)
    (hlook : st.clients.lookup cid = some info)
    (hsend : info.sendRaises = false) :
    (send_message st now dev command).ok = true ∧
    (send_message st now dev command).wire =
      some (if command.getLast? = some '\n' then command else command ++ ['\n']) ∧
    ((send_message st now dev command).wire.getD []).getLast? = some '\n' ∧
    (command.getLast? ≠ some '\n' →
      send_message st now dev (command ++ ['\n']) = send_message st now dev command) ∧
    (send_message st now dev command).state.clients.lookup cid =
      some { info with last_activity := now } := by
  refine ⟨?_, ?_, ?_, ?_, ?_⟩
  · unfold send_message
    simp [hfind, hlook, hsend]
  · unfold send_message
    simp [hfind, hlook, hsend]
  · unfold send_message
    by_cases hend : command.getLast? = some '\n'
    · simp [hfind, hlook, hsend, hend]
    · simp [hfind, hlook, hsend, hend, List.getLast?_concat]
  · intro hne
    unfold send_message
    simp only [hfind, hlook, hsend, Bool.false_eq_true, if_false, if_neg hne,
      List.getLast?_concat, if_pos rfl]
    simp
  · unfold send_message
    simp only [hfind, hlook, hsend, Bool.false_eq_true, if_false]
    exact alUpdate_lookup_self st.clients cid _

/-- Witness for C7: sending "CMD" to the connected sorter. -/
theorem c7_send_appends_exactly_one_newline_witness :
    (_find_client_by_device sampleState "sort_controller" = some "192.168.0.10:5000" ∧
      sampleState.clients.lookup "192.168.0.10:5000" =
        some { address := ("192.168.0.10", 5000), device_id := some "sort_controller",
               last_activity := 0, closeRaises := false, sendRaises := false }) ∧
    ((send_message sampleState 9 "sort_controller" ['C', 'M', 'D']).ok = true ∧
      (send_message sampleState 9 "sort_controller" ['C', 'M', 'D']).wire =
        some (if (['C', 'M', 'D'] : List Char).getLast? = some '\n'
          then ['C', 'M', 'D'] else ['C', 'M', 'D'] ++ ['\n']) ∧
      ((send_message sampleState 9 "sort_controller" ['C', 'M', 'D']).wire.getD
        []).getLast? = some '\n' ∧
      ((['C', 'M', 'D'] : List Char).getLast? ≠ some '\n' →
        send_message sampleState 9 "sort_controller" (['C', 'M', 'D'] ++ ['\n']) =
          send_message sampleState 9 "sort_controller" ['C', 'M', 'D']) ∧
      (send_message sampleState 9 "sort_controller"
          ['C', 'M', 'D']).state.clients.lookup "192.168.0.10:5000" =
        some { address := ("192.168.0.10", 5000), device_id := some "sort_controller",
               last_activity := 9, closeRaises := false, sendRaises := false }) :=
  ⟨⟨by decide, by decide⟩,
   c7_send_appends_exactly_one_newline sampleState 9 "sort_controller" ['C', 'M', 'D']
     "192.168.0.10:5000"
     { address := ("192.168.0.10", 5000), device_id := some "sort_controller",
       last_activity := 0, closeRaises := false, sendRaises := false }
     (by decide) (by decide) (by decide)⟩

/-! ## C9: outbound send with no matching client -/

/-- C9: when no connection's resolved identity equals the requested
device id, `send_message` returns failure without raising, leaves the
state unchanged, writes nothing, and logs the connected-client list
(ids, identities, addresses) together with the raw tag from the reversed
static mapping when the canonical id has one. -/
theorem c9_send_unconnected_fails_cleanly (st : TCPState) (now : Nat) (dev : String)
    (command : List Char)
    (h : ∀ p ∈ st.clients, p.2.device_id ≠ some dev) :
    send_message st now dev command =
      { state := st, ok := false, wire := none,
        connectedLog := some (st.clients.map
          (fun p => (p.1, p.2.device_id, p.2.address.1, p.2.address.2))),
        mappedRawLog := (DEVICE_ID_MAPPING.map (fun p => (p.2, p.1))).lookup dev } := by
  have hfind : _find_client_by_device st dev = none := by
    unfold _find_client_by_device
    have hnone : st.clients.find? (fun p => decide (p.2.device_id = some dev)) = none :=
      List.find?_eq_none.mpr (by intro x hx; simpa using h x hx)
    rw [hnone]
    rfl
  unfold send_message
  rw [hfind]

/-- Witness for C9: sending to the never-connected environment
controller; the reverse mapping yields its raw tag. -/
theorem c9_send_unconnected_fails_cleanly_witness :
    (∀ p ∈ sampleState.clients, p.2.device_id ≠ some "env_controller") ∧
    send_message sampleState 3 "env_controller" ['O', 'N'] =
      { state := sampleState, ok := false, wire := none,
        connectedLog := some (sampleState.clients.map
          (fun p => (p.1, p.2.device_id, p.2.address.1, p.2.address.2))),
        mappedRawLog := (DEVICE_ID_MAPPING.map (fun p => (p.2, p.1))).lookup
          "env_controller" } :=
  ⟨by decide,
   c9_send_unconnected_fails_cleanly sampleState 3 "env_controller" ['O', 'N'] (by decide)⟩
